import Mathlib

/-!
Verification development for the osclientcerts PKCS #11 module.

The definitions below are a shallow embedding of the Rust sources:
  - `src/der.rs`            (DER reader: `Der::read`, `Sequence`, `read_rsa_modulus`)
  - `src/backend_windows.rs` (certificate/key objects, template matching,
                             `Key::sign` parameter selection, `list_objects`,
                             `serialize_uint`)
  - `src/lib.rs`            (`C_GetSlotList`, `C_GetAttributeValue`)
  - `src/implementation.rs` (session/handle counters)

Byte strings are modelled as `List Nat` (each element a `u8` value; theorems
that need the `u8` range carry an explicit `< 256` hypothesis).  Pointers that
may be null are modelled as `Option`; a Rust `Result<_, ()>` is `Option`.
`CK_ULONG` and the handle types are modelled at 64 bits, following the
specification, so unsigned wrap-around is `% 2 ^ 64`.
-/

set_option autoImplicit false

namespace OsClientCerts

/-! ## Cryptoki constants (PKCS #11 v2.2 header values used by the sources) -/

def CKR_OK : Nat := 0x00
def CKR_ARGUMENTS_BAD : Nat := 0x07
def CKR_DEVICE_ERROR : Nat := 0x30
def CKR_BUFFER_TOO_SMALL : Nat := 0x150

def CKA_CLASS : Nat := 0x00
def CKA_TOKEN : Nat := 0x01
def CKA_PRIVATE : Nat := 0x02
def CKA_LABEL : Nat := 0x03
def CKA_VALUE : Nat := 0x11
def CKA_ISSUER : Nat := 0x81
def CKA_SERIAL_NUMBER : Nat := 0x82
def CKA_KEY_TYPE : Nat := 0x100
def CKA_SUBJECT : Nat := 0x101
def CKA_ID : Nat := 0x102
def CKA_MODULUS : Nat := 0x120
def CKA_EC_PARAMS : Nat := 0x180

def CKO_CERTIFICATE : Nat := 0x01
def CKO_PRIVATE_KEY : Nat := 0x03
def CKK_RSA : Nat := 0x00
def CKK_EC : Nat := 0x03
def CK_TRUE : Nat := 1

/-- Number of values of `CK_ULONG` (modelled at 64 bits). -/
def ckUlongCard : Nat := 2 ^ 64

/-- The value `(0 - 1) as CK_ULONG`, i.e. all-ones. -/
def ckUlongAllOnes : Nat := 2 ^ 64 - 1

/-- `std::mem::size_of` of the `CK_ULONG`-sized integer types, in bytes. -/
def ckUlongSize : Nat := 8

/-! ## DER reader (src/der.rs) -/

/-- ASN.1 tag identifying an integer. -/
def INTEGER : Nat := 0x02
/-- ASN.1 tag identifying a sequence. -/
def SEQUENCE : Nat := 0x10
/-- ASN.1 tag modifier identifying an item as constructed. -/
def CONSTRUCTED : Nat := 0x20

/-- The `try_read_bytes!` macro: if the slice is shorter than `len`, fail,
otherwise `split_at len`. -/
def tryReadBytes (data : List Nat) (len : Nat) : Option (List Nat × List Nat) :=
  if data.length < len then none else some (data.take len, data.drop len)

/-- The length-decoding portion of `Der::read` (the chain that computes
`(length, to_read_from)` from the bytes after the tag): a first byte below
0x80 is a short-form length; 0x81 must be followed by a byte of at least
0x80; 0x82 must be followed by two big-endian bytes decoding to at least 256
(`read_u16::<BigEndian>`); anything else fails. -/
def Der.readLen (rest : List Nat) : Option (Nat × List Nat) :=
  match tryReadBytes rest 1 with
  | none => none
  | some (length1, rest1) =>
    let b := length1.headD 0
    if b < 0x80 then some (b, rest1)
    else if b = 0x81 then
      match tryReadBytes rest1 1 with
      | none => none
      | some (l2, rest2) =>
        if l2.headD 0 < 0x80 then none else some (l2.headD 0, rest2)
    else if b = 0x82 then
      match tryReadBytes rest1 2 with
      | none => none
      | some (ls, rest2) =>
        let n := 256 * ls.headD 0 + ls.tail.headD 0
        if n < 256 then none else some (n, rest2)
    else none

/-- `Der::read`.  The Rust method takes `&mut self`; here the cursor contents
are passed in and the (possibly updated) contents are returned alongside the
result.  `self.contents` is assigned only on the success path, exactly as in
the source, so every error exit returns the incoming contents unchanged. -/
def Der.read (contents : List Nat) (tag : Nat) : Option (List Nat) × List Nat :=
  match tryReadBytes contents 1 with
  | none => (none, contents)
  | some (tagRead, rest) =>
    if tagRead.headD 0 ≠ tag then (none, contents)
    else
      match Der.readLen rest with
      | none => (none, contents)
      | some (len, toReadFrom) =>
        match tryReadBytes toReadFrom len with
        | none => (none, contents)
        | some (c, restFinal) => (some c, restFinal)

/-- `Der::at_end`. -/
def Der.atEnd (contents : List Nat) : Bool := contents.isEmpty

/-- `Sequence`: a helper for reading items from a DER SEQUENCE.  Its field is
the contents of the inner `Der` cursor. -/
structure Sequence where
  contents : List Nat
deriving DecidableEq

/-- `Sequence::new`: read a constructed SEQUENCE and require that it consumes
the entire input. -/
def Sequence.new (input : List Nat) : Option Sequence :=
  match Der.read input (SEQUENCE ||| CONSTRUCTED) with
  | (none, _) => none
  | (some sequenceBytes, rest) =>
    if ¬ Der.atEnd rest then none else some ⟨sequenceBytes⟩

/-- `Sequence::read_unsigned_integer` (`&mut self`, so the updated sequence is
returned as well). -/
def Sequence.read_unsigned_integer (s : Sequence) : Option (List Nat) × Sequence :=
  match Der.read s.contents INTEGER with
  | (none, c) => (none, ⟨c⟩)
  | (some bytes, c) =>
    if bytes.isEmpty then (none, ⟨c⟩)
    else if bytes.headD 0 = 0 ∧ 1 < bytes.length then (some bytes.tail, ⟨c⟩)
    else (some bytes, ⟨c⟩)

/-- `Sequence::at_end`. -/
def Sequence.atEnd (s : Sequence) : Bool := Der.atEnd s.contents

/-- `read_rsa_modulus`: extract the modulus from a DER RSAPublicKey. -/
def read_rsa_modulus (public_key : List Nat) : Option (List Nat) :=
  match Sequence.new public_key with
  | none => none
  | some sequence =>
    match sequence.read_unsigned_integer with
    | (none, _) => none
    | (some modulus_value, sequence1) =>
      match sequence1.read_unsigned_integer with
      | (none, _) => none
      | (some _exponent, sequence2) =>
        if ¬ sequence2.atEnd then none else some modulus_value

/-! ## Attribute codec (src/backend_windows.rs, `serialize_uint`) -/

/-- Little-endian base-256 digits, as written by byteorder for the
`NativeEndian` of the targets this backend builds for. -/
def writeUintBytes : Nat → Nat → List Nat
  | 0, _ => []
  | n + 1, v => v % 256 :: writeUintBytes n (v / 256)

/-- Model of byteorder `write_uint::<NativeEndian>` into a `Vec` writer:
writing to a `Vec` cannot produce an io error, and byteorder itself panics
(modelled as `none`) when the value does not fit in `nbytes` bytes. -/
def write_uint (value : Nat) (nbytes : Nat) : Option (List Nat) :=
  if 256 ^ nbytes ≤ value then none else some (writeUintBytes nbytes value)

/-- `serialize_uint`: `value_size` models `size_of::<T>()`.  The `Err` arm of
the match in the source is a panic, modelled as `none`. -/
def serialize_uint (value_size : Nat) (value : Nat) : Option (List Nat) :=
  match write_uint value value_size with
  | some buf => some buf
  | none => none

/-- Recover the value encoded by `writeUintBytes` (little-endian for the
supported targets). -/
def fromLeBytes : List Nat → Nat
  | [] => 0
  | b :: rest => b + 256 * fromLeBytes rest

/-- Convenience used at object-construction time; the values serialized there
always fit, so the panic is unreachable and `getD` never takes its default. -/
def serializeUintV (value : Nat) : List Nat :=
  (serialize_uint ckUlongSize value).getD []

/-! ## Certificate and key objects (src/backend_windows.rs) -/

/-- The data this backend extracts from a Windows `CERT_CONTEXT`: the encoded
certificate, the name/serial fields of `CERT_INFO`, and the
SubjectPublicKeyInfo pieces inspected by `Key::new`.  `algorithm_oid` is
`none` when `CStr::to_str` on `pszObjId` fails (non-UTF-8). -/
structure CertData where
  encoded : List Nat
  issuer : List Nat
  serial_number : List Nat
  subject : List Nat
  algorithm_oid : Option String
  public_key : List Nat
  cUnusedBits : Nat
  parameters : List Nat
deriving DecidableEq

def szOID_RSA_RSA : String := "1.2.840.113549.1.1.1"
def szOID_ECC_PUBLIC_KEY : String := "1.2.840.10045.2.1"

/-- `Cert`: the pre-serialized attribute byte strings of a certificate
object. -/
structure Cert where
  «class» : List Nat
  token : List Nat
  id : List Nat
  label : List Nat
  value : List Nat
  issuer : List Nat
  serial_number : List Nat
  subject : List Nat
deriving DecidableEq

/-- `Cert::new`.  `sha256` is the external digest from the sha2 crate, kept
abstract.  The source returns `Result` but has no error path. -/
def Cert.new (sha256 : List Nat → List Nat) (cd : CertData) : Option Cert :=
  let value := cd.encoded
  let id := sha256 value
  some
    { «class» := serializeUintV CKO_CERTIFICATE
      token := serializeUintV CK_TRUE
      id := id
      label := id
      value := value
      issuer := cd.issuer
      serial_number := cd.serial_number
      subject := cd.subject }

inductive KeyType where
  | EC
  | RSA
deriving DecidableEq

/-- `Key`: the pre-serialized attribute byte strings of a private-key object.
The `cert: CertContext` field of the source is an OS handle and carries no
attribute data, so it is not modelled. -/
structure Key where
  «class» : List Nat
  token : List Nat
  id : List Nat
  «private» : List Nat
  key_type : List Nat
  modulus : Option (List Nat)
  ec_params : Option (List Nat)
  key_type_enum : KeyType
deriving DecidableEq

/-- `Key::new`: recognize the SPKI algorithm and extract the RSA modulus or
the EC parameters; any other algorithm, or an SPKI parse failure, is an
error. -/
def Key.new (sha256 : List Nat → List Nat) (cd : CertData) : Option Key :=
  let id := sha256 cd.encoded
  match cd.algorithm_oid with
  | none => none
  | some algorithm_oid =>
    if algorithm_oid = szOID_RSA_RSA then
      if cd.cUnusedBits ≠ 0 then none
      else
        match Sequence.new cd.public_key with
        | none => none
        | some sequence =>
          match sequence.read_unsigned_integer with
          | (none, _) => none
          | (some modulus_value, sequence1) =>
            match sequence1.read_unsigned_integer with
            | (none, _) => none
            | (some _exponent, sequence2) =>
              if ¬ sequence2.atEnd then none
              else
                some
                  { «class» := serializeUintV CKO_PRIVATE_KEY
                    token := serializeUintV CK_TRUE
                    id := id
                    «private» := serializeUintV CK_TRUE
                    key_type := serializeUintV CKK_RSA
                    modulus := some modulus_value
                    ec_params := none
                    key_type_enum := KeyType.RSA }
    else if algorithm_oid = szOID_ECC_PUBLIC_KEY then
      some
        { «class» := serializeUintV CKO_PRIVATE_KEY
          token := serializeUintV CK_TRUE
          id := id
          «private» := serializeUintV CK_TRUE
          key_type := serializeUintV CKK_EC
          modulus := none
          ec_params := some cd.parameters
          key_type_enum := KeyType.EC }
    else none

/-- The match inside `Cert::matches` choosing the stored value to compare
against; the `_` arm returns `false` from the whole method, modelled as
`none`. -/
def Cert.comparisonFor (c : Cert) (attr_type : Nat) : Option (List Nat) :=
  if attr_type = CKA_CLASS then some c.«class»
  else if attr_type = CKA_TOKEN then some c.token
  else if attr_type = CKA_LABEL then some c.label
  else if attr_type = CKA_ID then some c.id
  else if attr_type = CKA_VALUE then some c.value
  else if attr_type = CKA_ISSUER then some c.issuer
  else if attr_type = CKA_SERIAL_NUMBER then some c.serial_number
  else if attr_type = CKA_SUBJECT then some c.subject
  else none

/-- `Cert::matches`: the loop over the template. -/
def Cert.matches (c : Cert) : List (Nat × List Nat) → Bool
  | [] => true
  | (attr_type, attr_value) :: rest =>
    match c.comparisonFor attr_type with
    | none => false
    | some comparison =>
      if attr_value ≠ comparison then false else c.matches rest

/-- `Cert::get_attribute`. -/
def Cert.get_attribute (c : Cert) (attr : Nat) : Option (List Nat) :=
  if attr = CKA_CLASS then some c.«class»
  else if attr = CKA_TOKEN then some c.token
  else if attr = CKA_LABEL then some c.label
  else if attr = CKA_ID then some c.id
  else if attr = CKA_VALUE then some c.value
  else if attr = CKA_ISSUER then some c.issuer
  else if attr = CKA_SERIAL_NUMBER then some c.serial_number
  else if attr = CKA_SUBJECT then some c.subject
  else none

/-- The match inside `Key::matches`; the guarded `CKA_MODULUS` and
`CKA_EC_PARAMS` arms fall through to the `_` arm (modelled as `none`) when the
optional field is absent. -/
def Key.comparisonFor (k : Key) (attr_type : Nat) : Option (List Nat) :=
  if attr_type = CKA_CLASS then some k.«class»
  else if attr_type = CKA_TOKEN then some k.token
  else if attr_type = CKA_ID then some k.id
  else if attr_type = CKA_PRIVATE then some k.«private»
  else if attr_type = CKA_KEY_TYPE then some k.key_type
  else if attr_type = CKA_MODULUS then
    match k.modulus with
    | some modulus => some modulus
    | none => none
  else if attr_type = CKA_EC_PARAMS then
    match k.ec_params with
    | some ec_params => some ec_params
    | none => none
  else none

/-- `Key::matches`: the loop over the template. -/
def Key.matches (k : Key) : List (Nat × List Nat) → Bool
  | [] => true
  | (attr_type, attr_value) :: rest =>
    match k.comparisonFor attr_type with
    | none => false
    | some comparison =>
      if attr_value ≠ comparison then false else k.matches rest

/-- `Key::get_attribute`. -/
def Key.get_attribute (k : Key) (attr : Nat) : Option (List Nat) :=
  if attr = CKA_CLASS then some k.«class»
  else if attr = CKA_TOKEN then some k.token
  else if attr = CKA_ID then some k.id
  else if attr = CKA_PRIVATE then some k.«private»
  else if attr = CKA_KEY_TYPE then some k.key_type
  else if attr = CKA_MODULUS then
    match k.modulus with
    | some modulus => some modulus
    | none => none
  else if attr = CKA_EC_PARAMS then
    match k.ec_params with
    | some ec_params => some ec_params
    | none => none
  else none

/-- `Object`: tagged certificate-or-key variant. -/
inductive Object where
  | cert (c : Cert)
  | key (k : Key)
deriving DecidableEq

/-- `Object::matches`. -/
def Object.matches (o : Object) (attrs : List (Nat × List Nat)) : Bool :=
  match o with
  | Object.cert c => c.matches attrs
  | Object.key k => k.matches attrs

/-- `Object::get_attribute`. -/
def Object.get_attribute (o : Object) (attr : Nat) : Option (List Nat) :=
  match o with
  | Object.cert c => c.get_attribute attr
  | Object.key k => k.get_attribute attr

/-! ## Key::sign parameter selection (src/backend_windows.rs) -/

/-- What is passed for `pPaddingInfo` to `NCryptSignHash`: a null pointer, a
`BCRYPT_PKCS1_PADDING_INFO` (whose `pszAlgId` may be null, i.e. `none`), or a
`BCRYPT_PSS_PADDING_INFO` (hash algorithm and salt length) — the last is what
an RSA-PSS request would need. -/
inductive NCryptSignParams where
  | null
  | pkcs1 (pszAlgId : Option String)
  | pss (pszAlgId : Option String) (cbSalt : Nat)
deriving DecidableEq

def NCRYPT_PAD_PKCS1_FLAG : Nat := 2
def NCRYPT_PAD_PSS_FLAG : Nat := 8

/-- The `(params, flags)` selection at the top of `Key::sign`: the only input
it consults is `self.key_type_enum`; the mechanism chosen at `C_SignInit`
never reaches it. -/
def Key.sign_params (key_type_enum : KeyType) : NCryptSignParams × Nat :=
  match key_type_enum with
  | KeyType.EC => (NCryptSignParams.null, 0)
  | KeyType.RSA => (NCryptSignParams.pkcs1 none, NCRYPT_PAD_PKCS1_FLAG)

/-! ## Store enumeration (src/backend_windows.rs, `list_objects`)

The store is modelled as the list of certificate contexts that successive
`CertFindCertificateInStore` calls would yield; the cursor is the remaining
suffix, and the call at the bottom of the `while` loop pops its head.  The
`continue` statements jump back to the loop condition without executing that
call, so they leave the cursor unchanged.  The loop is embedded with explicit
fuel counting loop iterations: `none` means the loop did not finish within
`fuel` iterations. -/

def list_objects_loop (sha256 : List Nat → List Nat) :
    Nat → List CertData → List Object → Option (List Object)
  | 0, _, _ => none
  | _ + 1, [], objects => some objects
  | fuel + 1, cd :: rest, objects =>
    match Cert.new sha256 cd with
    | none => list_objects_loop sha256 fuel (cd :: rest) objects
    | some cert =>
      match Key.new sha256 cd with
      | none => list_objects_loop sha256 fuel (cd :: rest) objects
      | some key =>
        list_objects_loop sha256 fuel rest
          (objects ++ [Object.cert cert, Object.key key])

/-- `list_objects` (the store-open failure path returns the empty list before
the loop and is not modelled; `store` is the already-open store). -/
def list_objects (sha256 : List Nat → List Nat) (fuel : Nat)
    (store : List CertData) : Option (List Object) :=
  list_objects_loop sha256 fuel store []

/-- The objects the enumeration loop is intended to produce on a store whose
certificates all parse: one certificate object then one key object per
certificate, skipping certificates whose `Key::new` fails. -/
def goodObjects (sha256 : List Nat → List Nat) : List CertData → List Object
  | [] => []
  | cd :: rest =>
    match Cert.new sha256 cd, Key.new sha256 cd with
    | some c, some k => Object.cert c :: Object.key k :: goodObjects sha256 rest
    | _, _ => goodObjects sha256 rest

/-! ## C_GetSlotList (src/lib.rs) -/

/-- This module only has one slot. Its ID is 1. -/
def SLOT_ID : Nat := 1

/-- Outcome of `C_GetSlotList`: the return value, the final contents of
`*pulCount` (`none` when `pulCount` is null), and the slot ID stored to
`pSlotList[0]` if any store happened. -/
structure SlotListResult where
  rv : Nat
  pulCount : Option Nat
  written : Option Nat
deriving DecidableEq

/-- `C_GetSlotList`.  `pSlotListNull` models `pSlotList.is_null()`;
`pulCount` is `none` for a null `pulCount` pointer and otherwise holds the
caller-provided count.  Note the source stores 1 through `pulCount` before
reading `slotCount` back from it. -/
def C_GetSlotList (pSlotListNull : Bool) (pulCount : Option Nat) : SlotListResult :=
  match pulCount with
  | none => ⟨CKR_ARGUMENTS_BAD, none, none⟩
  | some _callerCount =>
    let countWritten := 1
    if ¬ pSlotListNull then
      let slotCount := countWritten
      if slotCount < 1 then ⟨CKR_BUFFER_TOO_SMALL, some countWritten, none⟩
      else ⟨CKR_OK, some countWritten, some SLOT_ID⟩
    else ⟨CKR_OK, some countWritten, none⟩

/-! ## C_GetAttributeValue (src/lib.rs) -/

/-- One `CK_ATTRIBUTE` of the caller template: the attribute type, whether
`pValue` is null, and the caller-provided `ulValueLen`. -/
structure CkAttrIn where
  attrType : Nat
  pValueNull : Bool
  ulValueLen : Nat
deriving DecidableEq

/-- One template entry after the call: the final `ulValueLen` and the bytes
copied through `pValue` if any copy happened. -/
structure CkAttrOut where
  ulValueLen : Nat
  written : Option (List Nat)
deriving DecidableEq

/-- Modelled from the spec: `ManagerProxy::get_attributes` (manager.rs is not
under src/).  Spec §4.3 defines it as the vectorized form of
`get_attribute`, failing only on an unknown handle; for a resolved object it
returns one `optional<bytes>` per requested attribute type. -/
def get_attributes (o : Object) (attr_types : List Nat) : List (Option (List Nat)) :=
  attr_types.map o.get_attribute

/-- The output loop of `C_GetAttributeValue`, paired with the values returned
by the manager; `none` models the early `CKR_ARGUMENTS_BAD` return on a
length mismatch. -/
def getAttrLoop : List (Option (List Nat) × CkAttrIn) → Option (List CkAttrOut)
  | [] => some []
  | (some attr_value, attr) :: rest =>
    if attr.pValueNull then
      (getAttrLoop rest).map (fun outs => ⟨attr_value.length, none⟩ :: outs)
    else if attr_value.length ≠ attr.ulValueLen then none
    else (getAttrLoop rest).map (fun outs => ⟨attr.ulValueLen, some attr_value⟩ :: outs)
  | (none, _attr) :: rest =>
    (getAttrLoop rest).map (fun outs => ⟨ckUlongAllOnes, none⟩ :: outs)

/-- `C_GetAttributeValue` for a resolved object `o` (the claim is conditioned
on a handle and template the function accepts, so the unknown-handle
`CKR_ARGUMENTS_BAD` path is outside the model).  Returns the final template
state alongside the return value; on the early error return the template
entries already updated are discarded here, since the claim only speaks about
accepted attribute values and the error code. -/
def C_GetAttributeValue (o : Object) (template : List CkAttrIn) : Nat × List CkAttrOut :=
  let attr_types := template.map (fun a => a.attrType)
  let values := get_attributes o attr_types
  if values.length ≠ template.length then (CKR_DEVICE_ERROR, [])
  else
    match getAttrLoop (values.zip template) with
    | none => (CKR_ARGUMENTS_BAD, [])
    | some outs => (CKR_OK, outs)

/-- The per-entry success condition of the output loop: a present attribute
with a non-null `pValue` must come with the exact length. -/
def attrLenOk (o : Object) (a : CkAttrIn) : Prop :=
  match o.get_attribute a.attrType with
  | some v => a.pValueNull = true ∨ v.length = a.ulValueLen
  | none => True

instance (o : Object) (a : CkAttrIn) : Decidable (attrLenOk o a) := by
  unfold attrLenOk
  cases o.get_attribute a.attrType <;> infer_instance

/-- The per-entry output the two-call convention prescribes. -/
def expectedOut (o : Object) (a : CkAttrIn) : CkAttrOut :=
  match o.get_attribute a.attrType with
  | some v => if a.pValueNull then ⟨v.length, none⟩ else ⟨a.ulValueLen, some v⟩
  | none => ⟨ckUlongAllOnes, none⟩

/-! ## Session and handle counters (src/implementation.rs)

`CK_SESSION_HANDLE` and `CK_OBJECT_HANDLE` are `CK_ULONG`-sized, so the
`+= 1` increments wrap at `ckUlongCard` (release-profile Rust semantics).
The `searches` and `certs` maps play no part in the embedded operations and
are omitted. -/

structure Implementation where
  sessions : List Nat
  next_session : Nat
  next_handle : Nat
deriving DecidableEq

/-- `Implementation::new`. -/
def Implementation.new : Implementation :=
  { sessions := [], next_session := 1, next_handle := 1 }

/-- `Implementation::open_session`. -/
def Implementation.open_session (impl : Implementation) : Nat × Implementation :=
  let next_session := impl.next_session
  (next_session,
    { impl with
      next_session := (next_session + 1) % ckUlongCard
      sessions := next_session :: impl.sessions })

/-- `Implementation::close_all_sessions`. -/
def Implementation.close_all_sessions (impl : Implementation) : Implementation :=
  { impl with sessions := [] }

/-- `Implementation::get_next_handle`. -/
def Implementation.get_next_handle (impl : Implementation) : Nat × Implementation :=
  let next_handle := impl.next_handle
  (next_handle, { impl with next_handle := (next_handle + 1) % ckUlongCard })

/-- The operations of `Implementation` relevant to handle allocation.
`next_handle` stands for one `get_next_handle` call (as performed per
certificate by `find_certs`). -/
inductive Op where
  | open_session
  | close_all_sessions
  | next_handle
deriving DecidableEq

/-- Run a trace of operations, collecting the issued session handles and the
issued object handles in order. -/
def runOps : List Op → Implementation → Implementation × List Nat × List Nat
  | [], impl => (impl, [], [])
  | Op.open_session :: ops, impl =>
    let r := impl.open_session
    let rest := runOps ops r.2
    (rest.1, r.1 :: rest.2.1, rest.2.2)
  | Op.close_all_sessions :: ops, impl => runOps ops impl.close_all_sessions
  | Op.next_handle :: ops, impl =>
    let r := impl.get_next_handle
    let rest := runOps ops r.2
    (rest.1, rest.2.1, r.1 :: rest.2.2)

def countOpens : List Op → Nat
  | [] => 0
  | Op.open_session :: ops => countOpens ops + 1
  | _ :: ops => countOpens ops

def countNextHandles : List Op → Nat
  | [] => 0
  | Op.next_handle :: ops => countNextHandles ops + 1
  | _ :: ops => countNextHandles ops

/-- Session handles issued by a trace started from a fresh module. -/
def sessionsIssued (ops : List Op) : List Nat :=
  (runOps ops Implementation.new).2.1

/-- Object handles issued by a trace started from a fresh module. -/
def handlesIssued (ops : List Op) : List Nat :=
  (runOps ops Implementation.new).2.2

/-! ## Specification-side DER encodings (spec §4.1)

The spec scopes the DER reader to short-form lengths and the 0x81/0x82
long forms, so `encodeLen` is the minimal length encoding over that range
(`none` beyond it). -/

/-- Minimal DER length encoding in the forms the spec describes. -/
def encodeLen (n : Nat) : Option (List Nat) :=
  if n < 0x80 then some [n]
  else if n < 0x100 then some [0x81, n]
  else if n < 0x10000 then some [0x82, n / 256, n % 256]
  else none

/-- A TLV item with the given tag byte over `content`. -/
def derTLV (tag : Nat) (content : List Nat) : Option (List Nat) :=
  (encodeLen content.length).map (fun lenBytes => tag :: lenBytes ++ content)

/-- Strip one leading 0x00 sign byte when the content is longer than one
byte — the unsigned-integer convention the spec states. -/
def stripSignByte (m : List Nat) : List Nat :=
  if m.headD 0 = 0 ∧ 1 < m.length then m.tail else m

/-- The input is a single DER SEQUENCE holding exactly two INTEGERs (with
nonempty contents) and nothing else, and `m` and `e` are the raw contents of
the two INTEGERs. -/
def IsRsaPubKeyDer (input m e : List Nat) : Prop :=
  ∃ im ie s,
    m ≠ [] ∧ e ≠ [] ∧
    derTLV INTEGER m = some im ∧
    derTLV INTEGER e = some ie ∧
    derTLV (SEQUENCE ||| CONSTRUCTED) (im ++ ie) = some s ∧
    input = s

/-! ## Helper lemmas -/

theorem writeUintBytes_length : ∀ n v, (writeUintBytes n v).length = n
  | 0, _ => rfl
  | n + 1, v => by simp [writeUintBytes, writeUintBytes_length n]

theorem fromLeBytes_writeUintBytes : ∀ n v, fromLeBytes (writeUintBytes n v) = v % 256 ^ n
  | 0, v => by simp [writeUintBytes, fromLeBytes, Nat.mod_one]
  | n + 1, v => by
    rw [writeUintBytes, fromLeBytes, fromLeBytes_writeUintBytes n, pow_succ, mul_comm (256 ^ n),
      Nat.mod_mul]

theorem cert_comparisonFor_eq_get_attribute (c : Cert) (t : Nat) :
    c.comparisonFor t = c.get_attribute t := rfl

theorem key_comparisonFor_eq_get_attribute (k : Key) (t : Nat) :
    k.comparisonFor t = k.get_attribute t := rfl

theorem cert_matches_iff (c : Cert) (attrs : List (Nat × List Nat)) :
    c.matches attrs = true ↔ ∀ p ∈ attrs, c.get_attribute p.1 = some p.2 := by
  induction attrs with
  | nil => simp [Cert.matches]
  | cons p rest ih =>
    obtain ⟨t, v⟩ := p
    rw [Cert.matches, List.forall_mem_cons, ← ih, ← cert_comparisonFor_eq_get_attribute]
    cases h : c.comparisonFor t with
    | none => simp [h]
    | some comparison =>
      by_cases hv : v = comparison
      · subst hv; simp [h]
      · simp [h, hv, if_pos, Ne.symm hv]

theorem key_matches_iff (k : Key) (attrs : List (Nat × List Nat)) :
    k.matches attrs = true ↔ ∀ p ∈ attrs, k.get_attribute p.1 = some p.2 := by
  induction attrs with
  | nil => simp [Key.matches]
  | cons p rest ih =>
    obtain ⟨t, v⟩ := p
    rw [Key.matches, List.forall_mem_cons, ← ih, ← key_comparisonFor_eq_get_attribute]
    cases h : k.comparisonFor t with
    | none => simp [h]
    | some comparison =>
      by_cases hv : v = comparison
      · subst hv; simp [h]
      · simp [h, hv, if_pos, Ne.symm hv]

/-! ## Claim theorems -/

/-- C10: `serialize_uint` is total and fixed-width for in-range inputs: for a
value `v` of a `value_size`-byte unsigned type (so `v < 256 ^ value_size`) it
returns exactly `value_size` bytes whose native-byte-order (little-endian)
value is `v`, and the panic branch on a write error is unreachable. -/
theorem serialize_uint_total (value_size v : Nat) (h : v < 256 ^ value_size) :
    serialize_uint value_size v = some (writeUintBytes value_size v) ∧
    (writeUintBytes value_size v).length = value_size ∧
    fromLeBytes (writeUintBytes value_size v) = v := by
  refine ⟨?_, writeUintBytes_length _ _, ?_⟩
  · rw [serialize_uint, write_uint, if_neg (Nat.not_le.mpr h)]
  · rw [fromLeBytes_writeUintBytes, Nat.mod_eq_of_lt h]

/-- Witness for C10 at `value_size = 8`, `v = 0x0102` (the `CK_ULONG` width
used for attribute values). -/
theorem serialize_uint_total_witness :
    0x0102 < 256 ^ 8 ∧ serialize_uint 8 0x0102 = some [2, 1, 0, 0, 0, 0, 0, 0] :=
  ⟨by norm_num, by
    have h := (serialize_uint_total 8 0x0102 (by norm_num)).1
    simpa [writeUintBytes] using h⟩

/-- C2: for an RSA key the Windows backend always passes a
`BCRYPT_PKCS1_PADDING_INFO` whose `pszAlgId` is null together with
`NCRYPT_PAD_PKCS1_FLAG` — the PKCS#1 half of the claim.  The sign path never
constructs an OS-native PSS parameter structure for any PSS parameter block,
because `Key::sign` consults only `key_type_enum`: the PSS half of the claim
has no corresponding code. -/
theorem rsa_sign_params_always_pkcs1 :
    Key.sign_params KeyType.RSA = (NCryptSignParams.pkcs1 none, NCRYPT_PAD_PKCS1_FLAG) ∧
    Key.sign_params KeyType.EC = (NCryptSignParams.null, 0) ∧
    ∀ pszAlgId cbSalt,
      (Key.sign_params KeyType.RSA).1 ≠ NCryptSignParams.pss pszAlgId cbSalt ∧
      (Key.sign_params KeyType.RSA).2 ≠ NCRYPT_PAD_PSS_FLAG := by
  refine ⟨rfl, rfl, fun pszAlgId cbSalt => ⟨?_, by decide⟩⟩
  simp [Key.sign_params]

/-- C3: `C_GetSlotList` stores 1 through `pulCount` before reading the caller
count back from it, so with a non-null `pSlotList` and caller count 0 it
returns `CKR_OK` and stores the slot ID anyway, and the
`CKR_BUFFER_TOO_SMALL` branch is unreachable for every input. -/
theorem get_slot_list_buffer_check_dead :
    C_GetSlotList false (some 0) = ⟨CKR_OK, some 1, some SLOT_ID⟩ ∧
    (∀ pSlotListNull pulCount,
      (C_GetSlotList pSlotListNull pulCount).rv ≠ CKR_BUFFER_TOO_SMALL) ∧
    C_GetSlotList true (some 0) = ⟨CKR_OK, some 1, none⟩ ∧
    (∀ n, C_GetSlotList false (some n) = ⟨CKR_OK, some 1, some SLOT_ID⟩) ∧
    C_GetSlotList false none = ⟨CKR_ARGUMENTS_BAD, none, none⟩ := by
  refine ⟨by decide, ?_, by decide, fun n => by simp [C_GetSlotList], by decide⟩
  intro pSlotListNull pulCount
  cases pulCount with
  | none =>
    cases pSlotListNull <;>
      simp [C_GetSlotList, CKR_ARGUMENTS_BAD, CKR_BUFFER_TOO_SMALL]
  | some n =>
    cases pSlotListNull <;> simp [C_GetSlotList, CKR_OK, CKR_BUFFER_TOO_SMALL]

/-- C5: template matching agrees with attribute lookup, for both object
variants: `matches` is true exactly when every templated attribute is carried
by the object with a byte-for-byte equal value; a missing or unknown
attribute type makes the template a non-match, not an error. -/
theorem matches_iff_get_attribute (o : Object) (attrs : List (Nat × List Nat)) :
    o.matches attrs = true ↔ ∀ p ∈ attrs, o.get_attribute p.1 = some p.2 := by
  cases o with
  | cert c => simpa [Object.matches, Object.get_attribute] using cert_matches_iff c attrs
  | key k => simpa [Object.matches, Object.get_attribute] using key_matches_iff k attrs

theorem der_read_cursor_or_ok (contents : List Nat) (tag : Nat) :
    (Der.read contents tag).2 = contents ∨ (Der.read contents tag).1 ≠ none := by
  unfold Der.read
  repeat' (first | split | split_ifs)
  all_goals simp

/-- C9: `Der::read` is atomic on failure — when it returns an error the
cursor contents are unchanged, so a subsequent read observes exactly the
bytes seen before the failed call. -/
theorem der_read_error_preserves_cursor (contents : List Nat) (tag : Nat)
    (h : (Der.read contents tag).1 = none) :
    (Der.read contents tag).2 = contents ∧
    ∀ tag2, Der.read (Der.read contents tag).2 tag2 = Der.read contents tag2 := by
  have h2 : (Der.read contents tag).2 = contents :=
    (der_read_cursor_or_ok contents tag).resolve_right (not_not_intro h)
  exact ⟨h2, fun tag2 => by rw [h2]⟩

/-- Witness for C9: a read from an empty cursor fails and leaves it empty. -/
theorem der_read_error_preserves_cursor_witness :
    (Der.read [] INTEGER).1 = none ∧ (Der.read [] INTEGER).2 = [] :=
  ⟨by decide, (der_read_error_preserves_cursor [] INTEGER (by decide)).1⟩

theorem getAttrLoop_spec (o : Object) (template : List CkAttrIn) :
    getAttrLoop ((template.map (fun a => o.get_attribute a.attrType)).zip template) =
      if ∀ a ∈ template, attrLenOk o a then some (template.map (expectedOut o))
      else none := by
  induction template with
  | nil => simp [getAttrLoop]
  | cons a rest ih =>
    simp only [List.map_cons, List.zip_cons_cons, List.forall_mem_cons]
    cases h : o.get_attribute a.attrType with
    | none =>
      have ha : attrLenOk o a := by simp [attrLenOk, h]
      have he : expectedOut o a = ⟨ckUlongAllOnes, none⟩ := by simp [expectedOut, h]
      rw [getAttrLoop, ih]
      by_cases hrest : ∀ x ∈ rest, attrLenOk o x
      · simp [hrest, ha, he]
      · simp [hrest, ha]
    | some v =>
      rw [getAttrLoop, ih]
      by_cases hnull : a.pValueNull = true
      · have ha : attrLenOk o a := by simp [attrLenOk, h, hnull]
        have he : expectedOut o a = ⟨v.length, none⟩ := by
          simp [expectedOut, h, hnull]
        by_cases hrest : ∀ x ∈ rest, attrLenOk o x
        · simp [hnull, hrest, ha, he]
        · simp [hnull, hrest, ha]
      · by_cases hlen : v.length = a.ulValueLen
        · have ha : attrLenOk o a := by simp [attrLenOk, h, hlen]
          have he : expectedOut o a = ⟨a.ulValueLen, some v⟩ := by
            simp [expectedOut, h, hnull]
          by_cases hrest : ∀ x ∈ rest, attrLenOk o x
          · simp [hnull, hlen, hrest, ha, he]
          · simp [hnull, hlen, hrest, ha]
        · have hna : ¬ attrLenOk o a := by simp [attrLenOk, h, hnull, hlen]
          simp [hnull, hlen, hna]

/-- C4: the `C_GetAttributeValue` two-call convention: the call succeeds
exactly when every present templated attribute either has a null `pValue`
(only the length is reported) or a caller length equal to the value length
(else `CKR_ARGUMENTS_BAD`), and on success each output entry is the length
for null `pValue`, the copied bytes for non-null `pValue`, and an all-ones
`ulValueLen` for an attribute the object does not carry. -/
theorem get_attribute_value_two_call (o : Object) (template : List CkAttrIn) :
    ((C_GetAttributeValue o template).1 = CKR_OK ↔ ∀ a ∈ template, attrLenOk o a) ∧
    ((C_GetAttributeValue o template).1 = CKR_OK →
      (C_GetAttributeValue o template).2 = template.map (expectedOut o)) ∧
    ((C_GetAttributeValue o template).1 = CKR_OK ∨
      (C_GetAttributeValue o template).1 = CKR_ARGUMENTS_BAD) := by
  have hg : get_attributes o (template.map fun a => a.attrType) =
      template.map (fun a => o.get_attribute a.attrType) := by
    simp [get_attributes, List.map_map, Function.comp]
  unfold C_GetAttributeValue
  rw [if_neg (by simp [get_attributes]), hg, getAttrLoop_spec]
  by_cases hall : ∀ a ∈ template, attrLenOk o a
  · rw [if_pos hall]
    exact ⟨iff_of_true rfl hall, fun _ => rfl, Or.inl rfl⟩
  · rw [if_neg hall]
    exact ⟨iff_of_false (by decide) hall, fun h => absurd h (by decide), Or.inr rfl⟩

/-- Witness for C4 on a concrete certificate object and a template holding a
null-pValue attribute, an attribute the object does not carry, and an exact
length non-null attribute. -/
theorem get_attribute_value_two_call_witness :
    (C_GetAttributeValue (Object.cert (Cert.mk [1] [1] [2] [3] [4, 5] [6] [7] [8]))
        [⟨CKA_CLASS, true, 0⟩, ⟨CKA_MODULUS, true, 0⟩, ⟨CKA_VALUE, false, 2⟩]).2 =
      [⟨1, none⟩, ⟨ckUlongAllOnes, none⟩, ⟨2, some [4, 5]⟩] := by
  have h := (get_attribute_value_two_call
    (Object.cert (Cert.mk [1] [1] [2] [3] [4, 5] [6] [7] [8]))
    [⟨CKA_CLASS, true, 0⟩, ⟨CKA_MODULUS, true, 0⟩, ⟨CKA_VALUE, false, 2⟩]).2.1 (by decide)
  rw [h]
  decide

theorem pairwise_lt_range' : ∀ (n s : Nat), List.Pairwise (· < ·) (List.range' s n)
  | 0, _ => by simp
  | n + 1, s => by
    rw [List.range'_succ s n 1]
    refine List.Pairwise.cons ?_ (pairwise_lt_range' n (s + 1))
    intro b hb
    have h := List.mem_range'_1.mp hb
    omega

theorem countOpens_open (rest : List Op) :
    countOpens (Op.open_session :: rest) = countOpens rest + 1 := rfl

theorem countOpens_close (rest : List Op) :
    countOpens (Op.close_all_sessions :: rest) = countOpens rest := rfl

theorem countOpens_handle (rest : List Op) :
    countOpens (Op.next_handle :: rest) = countOpens rest := rfl

theorem countNextHandles_open (rest : List Op) :
    countNextHandles (Op.open_session :: rest) = countNextHandles rest := rfl

theorem countNextHandles_close (rest : List Op) :
    countNextHandles (Op.close_all_sessions :: rest) = countNextHandles rest := rfl

theorem countNextHandles_handle (rest : List Op) :
    countNextHandles (Op.next_handle :: rest) = countNextHandles rest + 1 := rfl

theorem runOps_spec (ops : List Op) : ∀ impl : Implementation,
    impl.next_session + countOpens ops ≤ ckUlongCard →
    impl.next_handle + countNextHandles ops ≤ ckUlongCard →
    (runOps ops impl).2.1 = List.range' impl.next_session (countOpens ops) ∧
    (runOps ops impl).2.2 = List.range' impl.next_handle (countNextHandles ops) := by
  have hcard : 0 < ckUlongCard := by norm_num [ckUlongCard]
  induction ops with
  | nil => intro impl _ _; simp [runOps, countOpens, countNextHandles]
  | cons op rest ih =>
    intro impl hs hh
    cases op with
    | open_session =>
      rw [countOpens_open] at hs
      rw [countNextHandles_open] at hh
      have hmod : (impl.next_session + 1) % ckUlongCard < ckUlongCard :=
        Nat.mod_lt _ hcard
      rcases Nat.eq_zero_or_pos (countOpens rest) with h0 | hpos
      · have hrec := ih
          { impl with
            next_session := (impl.next_session + 1) % ckUlongCard
            sessions := impl.next_session :: impl.sessions }
          (by simpa [h0] using Nat.le_of_lt hmod) (by simpa using hh)
        simp [runOps, Implementation.open_session, countOpens_open,
          countNextHandles_open, hrec.1, hrec.2, h0, List.range'_succ]
      · have heq : (impl.next_session + 1) % ckUlongCard = impl.next_session + 1 :=
          Nat.mod_eq_of_lt (by omega)
        have hrec := ih
          { impl with
            next_session := (impl.next_session + 1) % ckUlongCard
            sessions := impl.next_session :: impl.sessions }
          (by simpa [heq] using
            (by omega : impl.next_session + 1 + countOpens rest ≤ ckUlongCard))
          (by simpa using hh)
        simp only [heq] at hrec
        simp [runOps, Implementation.open_session, countOpens_open,
          countNextHandles_open, heq, hrec.1, hrec.2, List.range'_succ]
    | close_all_sessions =>
      rw [countOpens_close] at hs
      rw [countNextHandles_close] at hh
      have hrec := ih { impl with sessions := [] } (by simpa using hs)
        (by simpa using hh)
      simp [runOps, Implementation.close_all_sessions, countOpens_close,
        countNextHandles_close, hrec.1, hrec.2]
    | next_handle =>
      rw [countNextHandles_handle] at hh
      rw [countOpens_handle] at hs
      have hmod : (impl.next_handle + 1) % ckUlongCard < ckUlongCard :=
        Nat.mod_lt _ hcard
      rcases Nat.eq_zero_or_pos (countNextHandles rest) with h0 | hpos
      · have hrec := ih
          { impl with next_handle := (impl.next_handle + 1) % ckUlongCard }
          (by simpa using hs) (by simpa [h0] using Nat.le_of_lt hmod)
        simp [runOps, Implementation.get_next_handle, countOpens_handle,
          countNextHandles_handle, hrec.1, hrec.2, h0, List.range'_succ]
      · have heq : (impl.next_handle + 1) % ckUlongCard = impl.next_handle + 1 :=
          Nat.mod_eq_of_lt (by omega)
        have hrec := ih
          { impl with next_handle := (impl.next_handle + 1) % ckUlongCard }
          (by simpa using hs)
          (by simpa [heq] using
            (by omega : impl.next_handle + 1 + countNextHandles rest ≤ ckUlongCard))
        simp only [heq] at hrec
        simp [runOps, Implementation.get_next_handle, countOpens_handle,
          countNextHandles_handle, heq, hrec.1, hrec.2, List.range'_succ]

/-- C8: starting from a fresh module, session handles and object handles are
issued as the consecutive runs `1, 2, 3, …` (so the first `open_session`
returns 1), hence strictly monotonically increasing and never reused — also
across `close_all_sessions`, which clears the session set but leaves both
counters untouched.  The bounds keep the traces below the `CK_ULONG`
wrap-around. -/
theorem handles_strictly_monotonic (ops : List Op)
    (hs : countOpens ops + 1 ≤ ckUlongCard)
    (hh : countNextHandles ops + 1 ≤ ckUlongCard) :
    sessionsIssued ops = List.range' 1 (countOpens ops) ∧
    handlesIssued ops = List.range' 1 (countNextHandles ops) ∧
    List.Pairwise (· < ·) (sessionsIssued ops) ∧
    List.Pairwise (· < ·) (handlesIssued ops) ∧
    (0 < countOpens ops → (sessionsIssued ops).head? = some 1) ∧
    ∀ impl : Implementation,
      impl.close_all_sessions.sessions = [] ∧
      impl.close_all_sessions.next_session = impl.next_session ∧
      impl.close_all_sessions.next_handle = impl.next_handle := by
  have hrun := runOps_spec ops Implementation.new (by simp [Implementation.new]; omega)
    (by simp [Implementation.new]; omega)
  rw [sessionsIssued, handlesIssued, hrun.1, hrun.2]
  refine ⟨by simp [Implementation.new], by simp [Implementation.new], ?_, ?_, ?_, ?_⟩
  · simpa [Implementation.new] using pairwise_lt_range' (countOpens ops) 1
  · simpa [Implementation.new] using pairwise_lt_range' (countNextHandles ops) 1
  · intro hpos
    obtain ⟨k, hk⟩ := Nat.exists_eq_succ_of_ne_zero (Nat.pos_iff_ne_zero.mp hpos)
    simp [Implementation.new, hk, List.range'_succ]
  · intro impl
    exact ⟨rfl, rfl, rfl⟩

/-- Witness for C8 on the trace open, open, close-all, open, handle, handle. -/
theorem handles_strictly_monotonic_witness :
    sessionsIssued
        [Op.open_session, Op.open_session, Op.close_all_sessions,
          Op.open_session, Op.next_handle, Op.next_handle] = [1, 2, 3] ∧
    handlesIssued
        [Op.open_session, Op.open_session, Op.close_all_sessions,
          Op.open_session, Op.next_handle, Op.next_handle] = [1, 2] := by
  have h := handles_strictly_monotonic
    [Op.open_session, Op.open_session, Op.close_all_sessions,
      Op.open_session, Op.next_handle, Op.next_handle]
    (by norm_num [countOpens, ckUlongCard]) (by norm_num [countNextHandles, ckUlongCard])
  refine ⟨?_, ?_⟩
  · rw [h.1]; decide
  · rw [h.2.1]; decide

theorem list_objects_loop_good (sha256 : List Nat → List Nat) :
    ∀ (store : List CertData) (acc : List Object),
      (∀ cd ∈ store, (Key.new sha256 cd).isSome = true) →
      list_objects_loop sha256 (store.length + 1) store acc =
        some (acc ++ goodObjects sha256 store) := by
  intro store
  induction store with
  | nil => intro acc _; simp [list_objects_loop, goodObjects]
  | cons cd rest ih =>
    intro acc hgood
    obtain ⟨k, hk⟩ := Option.isSome_iff_exists.mp (hgood cd (List.mem_cons_self _ _))
    have hrec := ih (acc ++ [Object.cert ((Cert.new sha256 cd).getD (Cert.mk [] [] [] [] [] [] [] [])), Object.key k])
      (fun x hx => hgood x (List.mem_cons_of_mem _ hx))
    simp only [List.length_cons]
    rw [list_objects_loop]
    simp only [Cert.new, hk, goodObjects]
    rw [ih _ (fun x hx => hgood x (List.mem_cons_of_mem _ hx))]
    simp [Cert.new, hk]

theorem list_objects_loop_stuck (sha256 : List Nat → List Nat) (cd : CertData)
    (h : Key.new sha256 cd = none) :
    ∀ (fuel : Nat) (rest : List CertData) (acc : List Object),
      list_objects_loop sha256 fuel (cd :: rest) acc = none := by
  intro fuel
  induction fuel with
  | zero => intro rest acc; rfl
  | succ n ihn =>
    intro rest acc
    rw [list_objects_loop]
    simp only [Cert.new, h]
    exact ihn rest acc

/-- C1: enumeration produces one certificate object and one key object per
certificate whose key parses (in that order), but it is not total: on any
store whose first remaining certificate has an unparseable SPKI
(`Key::new` fails), the `continue` skips the cursor-advancing
`CertFindCertificateInStore` call, so no amount of fuel lets the loop
terminate and the remaining certificates are never reported. -/
theorem list_objects_spec :
    (∀ (sha256 : List Nat → List Nat) (store : List CertData),
      (∀ cd ∈ store, (Key.new sha256 cd).isSome = true) →
      list_objects sha256 (store.length + 1) store = some (goodObjects sha256 store)) ∧
    (∀ (sha256 : List Nat → List Nat) (cd : CertData) (rest : List CertData) (fuel : Nat),
      Key.new sha256 cd = none →
      list_objects sha256 fuel (cd :: rest) = none) := by
  constructor
  · intro sha256 store hgood
    rw [list_objects, list_objects_loop_good sha256 store [] hgood]
    simp
  · intro sha256 cd rest fuel h
    exact list_objects_loop_stuck sha256 cd h fuel rest []

/-- Witness for C1: a one-certificate EC store enumerates to two objects,
while a store whose head certificate has the RSA OID but an empty SPKI never
finishes, for fuel 1000 in particular. -/
theorem list_objects_spec_witness :
    list_objects (fun _ => [7]) 2 [⟨[1], [2], [3], [4], some szOID_ECC_PUBLIC_KEY, [], 0, [6]⟩] =
      some (goodObjects (fun _ => [7])
        [⟨[1], [2], [3], [4], some szOID_ECC_PUBLIC_KEY, [], 0, [6]⟩]) ∧
    (goodObjects (fun _ => [7])
        [⟨[1], [2], [3], [4], some szOID_ECC_PUBLIC_KEY, [], 0, [6]⟩]).length = 2 ∧
    list_objects (fun _ => [7]) 1000 [⟨[], [], [], [], some szOID_RSA_RSA, [], 0, []⟩] = none :=
  ⟨list_objects_spec.1 (fun _ => [7])
      [⟨[1], [2], [3], [4], some szOID_ECC_PUBLIC_KEY, [], 0, [6]⟩] (by decide), by decide,
    list_objects_spec.2 (fun _ => [7]) _ [] 1000 (by decide)⟩

/-! ## Length-decoding helper lemmas for `Der.readLen` -/

theorem tryReadBytes_one (a : Nat) (rest : List Nat) :
    tryReadBytes (a :: rest) 1 = some ([a], rest) := by
  unfold tryReadBytes
  rw [if_neg (by simp only [List.length_cons]; omega)]
  simp

theorem tryReadBytes_two (a b : Nat) (rest : List Nat) :
    tryReadBytes (a :: b :: rest) 2 = some ([a, b], rest) := by
  unfold tryReadBytes
  rw [if_neg (by simp only [List.length_cons]; omega)]
  simp [List.take_succ_cons, List.drop_succ_cons]

theorem readLen_short (n : Nat) (rest : List Nat) (h : n < 0x80) :
    Der.readLen (n :: rest) = some (n, rest) := by
  simp [Der.readLen, tryReadBytes_one, h]

theorem readLen_long1 (b : Nat) (rest : List Nat) (h : 0x80 ≤ b) :
    Der.readLen (0x81 :: b :: rest) = some (b, rest) := by
  simp [Der.readLen, tryReadBytes_one, Nat.not_lt.mpr h]

theorem readLen_long1_nonminimal (b : Nat) (rest : List Nat) (h : b < 0x80) :
    Der.readLen (0x81 :: b :: rest) = none := by
  simp [Der.readLen, tryReadBytes_one, h]

theorem readLen_long2 (hi lo : Nat) (rest : List Nat) (h : 256 ≤ 256 * hi + lo) :
    Der.readLen (0x82 :: hi :: lo :: rest) = some (256 * hi + lo, rest) := by
  simp [Der.readLen, tryReadBytes_one, tryReadBytes_two, Nat.not_lt.mpr h]

theorem readLen_long2_nonminimal (hi lo : Nat) (rest : List Nat)
    (h : 256 * hi + lo < 256) :
    Der.readLen (0x82 :: hi :: lo :: rest) = none := by
  simp [Der.readLen, tryReadBytes_one, tryReadBytes_two, h]

theorem readLen_other (b : Nat) (rest : List Nat) (h1 : 0x80 ≤ b) (h2 : b ≠ 0x81)
    (h3 : b ≠ 0x82) : Der.readLen (b :: rest) = none := by
  simp [Der.readLen, tryReadBytes_one, Nat.not_lt.mpr h1, h2, h3]

theorem readLen_nil : Der.readLen [] = none := rfl

theorem readLen_long1_truncated : Der.readLen [0x81] = none := rfl

theorem readLen_long2_truncated (rest : List Nat) (h : rest.length < 2) :
    Der.readLen (0x82 :: rest) = none := by
  simp [Der.readLen, tryReadBytes_one, tryReadBytes, h]

theorem read_wrong_tag {t tag : Nat} (rest : List Nat) (h : t ≠ tag) :
    Der.read (t :: rest) tag = (none, t :: rest) := by
  simp [Der.read, tryReadBytes_one, h]

theorem read_truncated_content {len : Nat} {lenRest toReadFrom : List Nat} (tag : Nat)
    (h : Der.readLen lenRest = some (len, toReadFrom))
    (h2 : toReadFrom.length < len) :
    Der.read (tag :: lenRest) tag = (none, tag :: lenRest) := by
  simp [Der.read, tryReadBytes_one, tryReadBytes, h, h2]

theorem read_ok_parts {len : Nat} {lenRest toReadFrom : List Nat} (tag : Nat)
    (h : Der.readLen lenRest = some (len, toReadFrom))
    (h2 : len ≤ toReadFrom.length) :
    Der.read (tag :: lenRest) tag =
      (some (toReadFrom.take len), toReadFrom.drop len) := by
  simp [Der.read, tryReadBytes_one, tryReadBytes, h, Nat.not_lt.mpr h2]

/-- C7: the length decoding in `Der::read` accepts a one-byte length below
0x80, accepts 0x81 followed by one byte exactly when that byte is at least
0x80, accepts 0x82 followed by two big-endian bytes exactly when their value
is at least 256, fails on any other first length byte, and fails on any
truncation of the tag byte, the length bytes, or the content bytes. -/
theorem der_read_length_decoding :
    (∀ (n : Nat) (rest : List Nat), n < 0x80 → Der.readLen (n :: rest) = some (n, rest)) ∧
    (∀ (b : Nat) (rest : List Nat), 0x80 ≤ b →
      Der.readLen (0x81 :: b :: rest) = some (b, rest)) ∧
    (∀ (b : Nat) (rest : List Nat), b < 0x80 → Der.readLen (0x81 :: b :: rest) = none) ∧
    (∀ (hi lo : Nat) (rest : List Nat), 256 ≤ 256 * hi + lo →
      Der.readLen (0x82 :: hi :: lo :: rest) = some (256 * hi + lo, rest)) ∧
    (∀ (hi lo : Nat) (rest : List Nat), 256 * hi + lo < 256 →
      Der.readLen (0x82 :: hi :: lo :: rest) = none) ∧
    (∀ (b : Nat) (rest : List Nat), 0x80 ≤ b → b ≠ 0x81 → b ≠ 0x82 →
      Der.readLen (b :: rest) = none) ∧
    (∀ tag : Nat, Der.read [] tag = (none, [])) ∧
    Der.readLen [] = none ∧
    Der.readLen [0x81] = none ∧
    (∀ rest : List Nat, rest.length < 2 → Der.readLen (0x82 :: rest) = none) ∧
    (∀ (t tag : Nat) (rest : List Nat), t ≠ tag →
      Der.read (t :: rest) tag = (none, t :: rest)) ∧
    (∀ (tag len : Nat) (lenRest toReadFrom : List Nat),
      Der.readLen lenRest = some (len, toReadFrom) → toReadFrom.length < len →
      Der.read (tag :: lenRest) tag = (none, tag :: lenRest)) ∧
    (∀ (tag len : Nat) (lenRest toReadFrom : List Nat),
      Der.readLen lenRest = some (len, toReadFrom) → len ≤ toReadFrom.length →
      Der.read (tag :: lenRest) tag =
        (some (toReadFrom.take len), toReadFrom.drop len)) :=
  ⟨fun n rest h => readLen_short n rest h,
    fun b rest h => readLen_long1 b rest h,
    fun b rest h => readLen_long1_nonminimal b rest h,
    fun hi lo rest h => readLen_long2 hi lo rest h,
    fun hi lo rest h => readLen_long2_nonminimal hi lo rest h,
    fun b rest h1 h2 h3 => readLen_other b rest h1 h2 h3,
    fun _ => rfl,
    readLen_nil,
    readLen_long1_truncated,
    fun rest h => readLen_long2_truncated rest h,
    fun _ _ rest h => read_wrong_tag rest h,
    fun tag _ _ _ h h2 => read_truncated_content tag h h2,
    fun tag _ _ _ h h2 => read_ok_parts tag h h2⟩

/-- Witness for C7: a long-form 0x81 length of 0x90 decodes to 0x90 even with
fewer content bytes available (content is read later), and a short-form read
succeeds end to end. -/
theorem der_read_length_decoding_witness :
    Der.readLen [0x81, 0x90, 5] = some (0x90, [5]) ∧
    Der.read [0x10, 2, 7, 8] 0x10 = (some [7, 8], []) := by
  constructor
  · exact der_read_length_decoding.2.1 0x90 [5] (by norm_num)
  · have h := der_read_length_decoding.2.2.2.2.2.2.2.2.2.2.2.2 0x10 2 [2, 7, 8] [7, 8]
      (by decide) (by decide)
    simpa using h

/-! ## Encoding/decoding correspondence for the spec-side DER forms -/

theorem encodeLen_readLen (n : Nat) (lb rest : List Nat)
    (h : encodeLen n = some lb) :
    Der.readLen (lb ++ rest) = some (n, rest) := by
  unfold encodeLen at h
  split_ifs at h with h1 h2 h3
  · cases h; exact readLen_short n rest h1
  · cases h; exact readLen_long1 n rest (Nat.le_of_not_lt h1)
  · cases h
    have h4 : 256 * (n / 256) + n % 256 = n := Nat.div_add_mod n 256
    have h5 := readLen_long2 (n / 256) (n % 256) rest
      (by rw [h4]; exact Nat.le_of_not_lt h2)
    rw [h4] at h5
    exact h5

theorem readLen_inv (input : List Nat) (n : Nat) (rest : List Nat)
    (hb : ∀ b ∈ input, b < 256) (h : Der.readLen input = some (n, rest)) :
    ∃ lb, encodeLen n = some lb ∧ input = lb ++ rest := by
  cases input with
  | nil => rw [readLen_nil] at h; cases h
  | cons b r =>
    by_cases hb1 : b < 0x80
    · rw [readLen_short b r hb1] at h
      injection h with h'
      injection h' with e1 e2
      subst e1
      subst e2
      exact ⟨[b], by simp [encodeLen, hb1], rfl⟩
    · by_cases hb2 : b = 0x81
      · subst hb2
        cases r with
        | nil => rw [readLen_long1_truncated] at h; cases h
        | cons c r2 =>
          by_cases hc : c < 0x80
          · rw [readLen_long1_nonminimal c r2 hc] at h; cases h
          · rw [readLen_long1 c r2 (Nat.le_of_not_lt hc)] at h
            injection h with h'
            injection h' with e1 e2
            subst e1
            subst e2
            have hc256 : c < 256 := hb c (by simp)
            exact ⟨[0x81, c], by simp [encodeLen, hc, hc256], rfl⟩
      · by_cases hb3 : b = 0x82
        · subst hb3
          cases r with
          | nil => rw [readLen_long2_truncated [] (by simp)] at h; cases h
          | cons hi r2 =>
            cases r2 with
            | nil => rw [readLen_long2_truncated [hi] (by simp)] at h; cases h
            | cons lo r3 =>
              by_cases hlt : 256 * hi + lo < 256
              · rw [readLen_long2_nonminimal hi lo r3 hlt] at h; cases h
              · rw [readLen_long2 hi lo r3 (Nat.le_of_not_lt hlt)] at h
                injection h with h'
                injection h' with e1 e2
                subst e1
                subst e2
                have hhi : hi < 256 := hb hi (by simp)
                have hlo : lo < 256 := hb lo (by simp)
                refine ⟨[0x82, hi, lo], ?_, rfl⟩
                have hdiv : (256 * hi + lo) / 256 = hi := by omega
                have hmod : (256 * hi + lo) % 256 = lo := by omega
                unfold encodeLen
                rw [if_neg (by omega), if_neg (by omega), if_pos (by omega),
                  hdiv, hmod]
        · rw [readLen_other b r (Nat.le_of_not_lt hb1) hb2 hb3] at h
          cases h

theorem read_ok (tag : Nat) (content lb rest : List Nat)
    (h : encodeLen content.length = some lb) :
    Der.read (tag :: lb ++ content ++ rest) tag = (some content, rest) := by
  have hlen := encodeLen_readLen content.length lb (content ++ rest) h
  have h2 := read_ok_parts tag hlen (by simp)
  simpa [List.take_left, List.drop_left] using h2

theorem read_inv (contents : List Nat) (tag : Nat) (c rest : List Nat)
    (hb : ∀ b ∈ contents, b < 256) (h : Der.read contents tag = (some c, rest)) :
    ∃ lb, encodeLen c.length = some lb ∧ contents = tag :: lb ++ c ++ rest := by
  cases contents with
  | nil =>
    rw [show Der.read [] tag = (none, []) from rfl] at h
    simp at h
  | cons t r =>
    by_cases ht : t = tag
    · cases hr : Der.readLen r with
      | none =>
        rw [show Der.read (t :: r) tag = (none, t :: r) from by
          rw [Der.read, tryReadBytes_one]; simp [ht, hr]] at h
        simp at h
      | some p =>
        obtain ⟨len, tRF⟩ := p
        cases ht2 : tryReadBytes tRF len with
        | none =>
          rw [show Der.read (t :: r) tag = (none, t :: r) from by
            rw [Der.read, tryReadBytes_one]; simp [ht, hr, ht2]] at h
          simp at h
        | some q =>
          obtain ⟨c2, rf⟩ := q
          rw [show Der.read (t :: r) tag = (some c2, rf) from by
            rw [Der.read, tryReadBytes_one]; simp [ht, hr, ht2]] at h
          injection h with p1 p2
          injection p1 with p1
          subst p1
          subst p2
          unfold tryReadBytes at ht2
          by_cases hlt : tRF.length < len
          · rw [if_pos hlt] at ht2; cases ht2
          · rw [if_neg hlt] at ht2
            injection ht2 with ht2'
            injection ht2' with e1 e2
            subst e1
            subst e2
            have hclen : (tRF.take len).length = len := by
              rw [List.length_take]
              exact Nat.min_eq_left (Nat.le_of_not_lt hlt)
            obtain ⟨lb, helb, hr2⟩ :=
              readLen_inv r len tRF (fun b hbm => hb b (by simp [hbm])) hr
            refine ⟨lb, by rw [hclen]; exact helb, ?_⟩
            rw [ht, hr2, ← List.take_append_drop len tRF]
            simp
    · rw [read_wrong_tag r ht] at h
      simp at h

theorem sequence_new_ok (c lb : List Nat) (h : encodeLen c.length = some lb) :
    Sequence.new ((SEQUENCE ||| CONSTRUCTED) :: lb ++ c) = some ⟨c⟩ := by
  have h2 := read_ok (SEQUENCE ||| CONSTRUCTED) c lb [] h
  rw [List.append_nil] at h2
  rw [Sequence.new, h2]
  simp [Der.atEnd]

theorem sequence_new_inv (input : List Nat) (s : Sequence)
    (hb : ∀ b ∈ input, b < 256) (h : Sequence.new input = some s) :
    ∃ lb, encodeLen s.contents.length = some lb ∧
      input = (SEQUENCE ||| CONSTRUCTED) :: lb ++ s.contents := by
  rw [Sequence.new] at h
  cases hr : Der.read input (SEQUENCE ||| CONSTRUCTED) with
  | mk r1 r2 =>
    rw [hr] at h
    cases r1 with
    | none => simp at h
    | some sb =>
      by_cases hend : Der.atEnd r2
      · have hr2 : r2 = [] := by
          simpa [Der.atEnd, List.isEmpty_iff] using hend
        subst hr2
        have hs : s = ⟨sb⟩ := by
          have h' : some (⟨sb⟩ : Sequence) = some s := by
            simpa [hend] using h
          injection h' with h'
          exact h'.symm
        subst hs
        obtain ⟨lb, helb, hin⟩ := read_inv input _ sb [] hb hr
        rw [List.append_nil] at hin
        exact ⟨lb, helb, hin⟩
      · simp [hend] at h

theorem read_unsigned_integer_ok (m lb restc : List Nat) (hm : m ≠ [])
    (h : encodeLen m.length = some lb) :
    Sequence.read_unsigned_integer ⟨INTEGER :: lb ++ m ++ restc⟩ =
      (some (stripSignByte m), ⟨restc⟩) := by
  have h2 := read_ok INTEGER m lb restc h
  rw [Sequence.read_unsigned_integer]
  have hcontents : (⟨INTEGER :: lb ++ m ++ restc⟩ : Sequence).contents =
      INTEGER :: lb ++ m ++ restc := rfl
  rw [hcontents, h2]
  have hne : ¬ (m.isEmpty = true) := by
    simp [List.isEmpty_iff]; exact hm
  show (if m.isEmpty then ((none : Option (List Nat)), (⟨restc⟩ : Sequence))
      else if m.headD 0 = 0 ∧ 1 < m.length then (some m.tail, ⟨restc⟩)
      else (some m, ⟨restc⟩)) = (some (stripSignByte m), ⟨restc⟩)
  rw [if_neg hne]
  unfold stripSignByte
  split_ifs <;> rfl

theorem read_unsigned_integer_inv (s : Sequence) (v : List Nat) (s2 : Sequence)
    (hb : ∀ b ∈ s.contents, b < 256)
    (h : s.read_unsigned_integer = (some v, s2)) :
    ∃ m lb, m ≠ [] ∧ encodeLen m.length = some lb ∧
      s.contents = INTEGER :: lb ++ m ++ s2.contents ∧ v = stripSignByte m := by
  rw [Sequence.read_unsigned_integer] at h
  cases hr : Der.read s.contents INTEGER with
  | mk r1 c =>
    rw [hr] at h
    cases r1 with
    | none => simp at h
    | some bytes =>
      replace h : (if bytes.isEmpty then ((none : Option (List Nat)), (⟨c⟩ : Sequence))
          else if bytes.headD 0 = 0 ∧ 1 < bytes.length then (some bytes.tail, ⟨c⟩)
          else (some bytes, ⟨c⟩)) = (some v, s2) := h
      by_cases hemp : bytes.isEmpty
      · rw [if_pos hemp] at h
        simp at h
      · rw [if_neg hemp] at h
        have hmne : bytes ≠ [] := by simpa [List.isEmpty_iff] using hemp
        obtain ⟨lb, helb, hctn⟩ := read_inv s.contents INTEGER bytes c hb hr
        have harm : s2 = ⟨c⟩ ∧ v = stripSignByte bytes := by
          by_cases hcond : bytes.headD 0 = 0 ∧ 1 < bytes.length
          · rw [if_pos hcond] at h
            injection h with p1 p2
            injection p1 with p1
            exact ⟨p2.symm, by rw [← p1, stripSignByte, if_pos hcond]⟩
          · rw [if_neg hcond] at h
            injection h with p1 p2
            injection p1 with p1
            exact ⟨p2.symm, by rw [← p1, stripSignByte, if_neg hcond]⟩
        obtain ⟨hs2, hv⟩ := harm
        subst hs2
        exact ⟨bytes, lb, hmne, helb, hctn, hv⟩

/-- C6: `read_rsa_modulus` succeeds exactly when the input is a single DER
SEQUENCE (in the length encodings of §4.1) holding exactly two INTEGERs with
no bytes left over inside or after the SEQUENCE, and then returns the first
INTEGER content with one leading 0x00 sign byte stripped when the content is
longer than one byte. -/
theorem read_rsa_modulus_iff (input : List Nat) (hb : ∀ b ∈ input, b < 256)
    (v : List Nat) :
    read_rsa_modulus input = some v ↔
      ∃ m e, IsRsaPubKeyDer input m e ∧ v = stripSignByte m := by
  constructor
  · intro h
    rw [read_rsa_modulus] at h
    cases hs : Sequence.new input with
    | none => rw [hs] at h; simp at h
    | some seq =>
      rw [hs] at h
      replace h : (match seq.read_unsigned_integer with
          | (none, _) => (none : Option (List Nat))
          | (some modulus_value, sequence1) =>
            match sequence1.read_unsigned_integer with
            | (none, _) => none
            | (some _exponent, sequence2) =>
              if ¬ sequence2.atEnd then none else some modulus_value) =
          some v := h
      obtain ⟨lbS, hencS, hinput⟩ := sequence_new_inv input seq hb hs
      have hbseq : ∀ b ∈ seq.contents, b < 256 := fun b hbm =>
        hb b (by rw [hinput]; simp [hbm])
      cases h1 : seq.read_unsigned_integer with
      | mk r1 seq1 =>
        rw [h1] at h
        cases r1 with
        | none => simp at h
        | some v1 =>
          replace h : (match seq1.read_unsigned_integer with
              | (none, _) => (none : Option (List Nat))
              | (some _exponent, sequence2) =>
                if ¬ sequence2.atEnd then none else some v1) = some v := h
          obtain ⟨m, lb1, hmne, henc1, hc1, hv1⟩ :=
            read_unsigned_integer_inv seq v1 seq1 hbseq h1
          have hbseq1 : ∀ b ∈ seq1.contents, b < 256 := fun b hbm =>
            hbseq b (by rw [hc1]; simp [hbm])
          cases h2 : seq1.read_unsigned_integer with
          | mk r2 seq2 =>
            rw [h2] at h
            cases r2 with
            | none => simp at h
            | some v2 =>
              obtain ⟨e, lb2, hene, henc2, hc2, hv2⟩ :=
                read_unsigned_integer_inv seq1 v2 seq2 hbseq1 h2
              replace h : (if ¬ seq2.atEnd then (none : Option (List Nat))
                  else some v1) = some v := h
              by_cases hend : seq2.atEnd
              · rw [if_neg (by simpa using hend)] at h
                injection h with h'
                have hs2 : seq2.contents = [] := by
                  simpa [Sequence.atEnd, Der.atEnd, List.isEmpty_iff] using hend
                rw [hs2, List.append_nil] at hc2
                have hseqeq : (INTEGER :: lb1 ++ m) ++ (INTEGER :: lb2 ++ e) =
                    seq.contents := by
                  simp [hc1, hc2]
                refine ⟨m, e, ⟨INTEGER :: lb1 ++ m, INTEGER :: lb2 ++ e,
                  (SEQUENCE ||| CONSTRUCTED) :: lbS ++ seq.contents,
                  hmne, hene, ?_, ?_, ?_, hinput⟩, by rw [← h', hv1]⟩
                · rw [derTLV, henc1]; rfl
                · rw [derTLV, henc2]; rfl
                · rw [derTLV, hseqeq, hencS]; rfl
              · rw [if_pos (by simpa using hend)] at h
                cases h
  · rintro ⟨m, e, ⟨im, ie, s0, hmne, hene, him, hie, his, hin⟩, rfl⟩
    obtain ⟨lb1, henc1, rfl⟩ : ∃ lb1, encodeLen m.length = some lb1 ∧
        im = INTEGER :: lb1 ++ m := by
      rw [derTLV] at him
      cases hel : encodeLen m.length with
      | none => rw [hel] at him; simp at him
      | some lb1 =>
        rw [hel] at him
        refine ⟨lb1, rfl, ?_⟩
        injection him with him'
        exact him'.symm
    obtain ⟨lb2, henc2, rfl⟩ : ∃ lb2, encodeLen e.length = some lb2 ∧
        ie = INTEGER :: lb2 ++ e := by
      rw [derTLV] at hie
      cases hel : encodeLen e.length with
      | none => rw [hel] at hie; simp at hie
      | some lb2 =>
        rw [hel] at hie
        refine ⟨lb2, rfl, ?_⟩
        injection hie with hie'
        exact hie'.symm
    obtain ⟨lbS, hencS, rfl⟩ : ∃ lbS,
        encodeLen ((INTEGER :: lb1 ++ m) ++ (INTEGER :: lb2 ++ e)).length =
          some lbS ∧
        s0 = (SEQUENCE ||| CONSTRUCTED) :: lbS ++
          ((INTEGER :: lb1 ++ m) ++ (INTEGER :: lb2 ++ e)) := by
      rw [derTLV] at his
      cases hel :
          encodeLen ((INTEGER :: lb1 ++ m) ++ (INTEGER :: lb2 ++ e)).length with
      | none => rw [hel] at his; simp at his
      | some lbS =>
        rw [hel] at his
        refine ⟨lbS, rfl, ?_⟩
        injection his with his'
        exact his'.symm
    subst hin
    rw [read_rsa_modulus,
      sequence_new_ok ((INTEGER :: lb1 ++ m) ++ (INTEGER :: lb2 ++ e)) lbS hencS]
    have hu1 := read_unsigned_integer_ok m lb1 (INTEGER :: lb2 ++ e) hmne henc1
    have hu2 := read_unsigned_integer_ok e lb2 [] hene henc2
    rw [List.append_nil] at hu2
    show (match Sequence.read_unsigned_integer
        ⟨(INTEGER :: lb1 ++ m) ++ (INTEGER :: lb2 ++ e)⟩ with
      | (none, _) => (none : Option (List Nat))
      | (some modulus_value, sequence1) =>
        match sequence1.read_unsigned_integer with
        | (none, _) => none
        | (some _exponent, sequence2) =>
          if ¬ sequence2.atEnd then none else some modulus_value) =
      some (stripSignByte m)
    rw [show ((INTEGER :: lb1 ++ m) ++ (INTEGER :: lb2 ++ e)) =
        INTEGER :: lb1 ++ m ++ (INTEGER :: lb2 ++ e) from by simp, hu1]
    show (match Sequence.read_unsigned_integer ⟨INTEGER :: lb2 ++ e⟩ with
      | (none, _) => (none : Option (List Nat))
      | (some _exponent, sequence2) =>
        if ¬ sequence2.atEnd then none else some (stripSignByte m)) =
      some (stripSignByte m)
    rw [hu2]
    show (if ¬ Sequence.atEnd ⟨[]⟩ then (none : Option (List Nat))
        else some (stripSignByte m)) = some (stripSignByte m)
    simp [Sequence.atEnd, Der.atEnd]

/-- Witness for C6 on the example of the claim:
`SEQUENCE { INTEGER 00 80, INTEGER 03 }` yields the modulus bytes starting at
0x80 (the sign byte is stripped). -/
theorem read_rsa_modulus_iff_witness :
    read_rsa_modulus [0x30, 0x07, 0x02, 0x02, 0x00, 0x80, 0x02, 0x01, 0x03] =
      some [0x80] :=
  (read_rsa_modulus_iff [0x30, 0x07, 0x02, 0x02, 0x00, 0x80, 0x02, 0x01, 0x03]
      (by decide) [0x80]).mpr
    ⟨[0x00, 0x80], [0x03],
      ⟨[0x02, 0x02, 0x00, 0x80], [0x02, 0x01, 0x03],
        [0x30, 0x07, 0x02, 0x02, 0x00, 0x80, 0x02, 0x01, 0x03],
        by decide, by decide, by decide, by decide, by decide, rfl⟩,
      by decide⟩

end OsClientCerts
